import Mathlib

/-!
Verification of the CEASIOMpy Optimisation module glue layer
(`ceasiompy/Optimisation/optimisation.py`) and the SkinFriction variable
declaration metadata (`ceasiompy/SkinFriction/__specs__.py`).

Numeric values are modelled as rationals.  Failures (Python exceptions:
KeyError on a missing dictionary key, IndexError on `listval[-1]` of an empty
list, ZeroDivisionError, a failed module step, a missing XML path) are
modelled with an explicit error type and `Except`.
-/

/-- Numeric values of the program (Python floats), modelled as rationals. -/
abbrev Val := ℚ

/-- The failure kinds that can propagate out of the optimisation loop. -/
inductive PyErr where
  /-- The objective expression references a token that is not a key of
  `res_var_dict` (Python: KeyError in the binding loop of `compute_obj`). -/
  | undefinedVariable (name : String)
  /-- `listval[-1]` on an empty history (Python: IndexError). -/
  | indexError
  /-- Division by zero while evaluating the objective expression. -/
  | zeroDivision
  /-- A malformed objective expression (an empty token). -/
  | exprError
  /-- A result variable's get-path is absent from the produced XML document. -/
  | pathNotFound (path : String)
  /-- A step of the external module chain failed. -/
  | moduleError (msg : String)
deriving DecidableEq, Repr

/-- One entry of `design_var_dict`: the tuple
`(name, listval, minval, maxval, setcommand, getcommand)` of the source. -/
structure DesignVarEntry where
  name : String
  listval : List Val
  minval : Val
  maxval : Val
  setcommand : String
  getcommand : String
deriving DecidableEq, Repr

/-- One entry of `res_var_dict`: the tuple
`(name, listval, lower_bound, upper_bound, getcommand)` of the source. -/
structure ResVarEntry where
  name : String
  listval : List Val
  lower_bound : Val
  upper_bound : Val
  getcommand : String
deriving DecidableEq, Repr

/-- Python dictionaries preserve insertion order; both variable dictionaries
are modelled as association lists. -/
abbrev Dict (α : Type) := List (String × α)

/-- First-match lookup in an association list (Python dict indexing). -/
def lookupA {α : Type} : Dict α → String → Option α
  | [], _ => none
  | (k, v) :: rest, key => if k = key then some v else lookupA rest key

/-- The four operator characters of the objective-expression language,
the character class of the source's `re.split` call (plus, star, slash,
minus). -/
def isOpChar (c : Char) : Bool := c = '+' || c = '*' || c = '/' || c = '-'

/-- Splits a character list at every operator character, keeping the operator:
returns the first token and the list of (operator, following token) pairs. -/
def altSplit : List Char → String × List (Char × String)
  | [] => ("", [])
  | c :: cs =>
    let r := altSplit cs
    if isOpChar c then ("", (c, r.1) :: r.2)
    else (⟨c :: r.1.data⟩, r.2)

/-- The source's `splt` applied to the operator character class and `s`: the
substrings of `s` between occurrences of the four operator characters, in
order. -/
def splt (s : String) : List String :=
  let r := altSplit s.data
  r.1 :: r.2.map Prod.snd

/-- Evaluates one token under an environment: an empty token is a Python
syntax failure, an unbound token a Python name failure. -/
def evalTok (env : String → Option Val) (t : String) : Except PyErr Val :=
  if t = "" then .error .exprError
  else
    match env t with
    | some v => .ok v
    | none => .error (.undefinedVariable t)

/-- Evaluates the tail of an arithmetic expression with Python operator
precedence (`*` and `/` bind tighter than `+` and `-`, all left-associative):
`total` is the sum of the finished additive terms, `sign` the sign of the
current term, `cur` its product so far. -/
def evalChain (env : String → Option Val) (total sign cur : Val) :
    List (Char × String) → Except PyErr Val
  | [] => .ok (total + sign * cur)
  | (op, t) :: rest =>
    match evalTok env t with
    | .error e => .error e
    | .ok v =>
      if op = '*' then evalChain env total sign (cur * v) rest
      else if op = '/' then
        if v = 0 then .error .zeroDivision
        else evalChain env total sign (cur / v) rest
      else if op = '+' then evalChain env (total + sign * cur) 1 v rest
      else evalChain env (total + sign * cur) (-1) v rest

/-- Python `eval` restricted to the shapes `compute_obj` feeds it: an
arithmetic expression over identifier tokens joined by `+ - * /`. -/
def pyEval (s : String) (env : String → Option Val) : Except PyErr Val :=
  match evalTok env (altSplit s.data).1 with
  | .error e => .error e
  | .ok v0 => evalChain env 0 1 v0 (altSplit s.data).2

/-- The binding loop of `compute_obj`: for each token `v` of the split
objective, `exec('{} = res_var_dict["{}"][1][-1]')` — a missing key fails
(KeyError), an empty history fails (IndexError), otherwise the token is bound
to the last history value. -/
def bindTokens (res_var_dict : Dict ResVarEntry) :
    List String → Dict Val → Except PyErr (Dict Val)
  | [], env => .ok env
  | v :: vs, env =>
    match lookupA res_var_dict v with
    | none => .error (.undefinedVariable v)
    | some e =>
      match e.listval.getLast? with
      | none => .error .indexError
      | some x => bindTokens res_var_dict vs (env ++ [(v, x)])

/-- `compute_obj` of the source: split the objective expression on the four
operator characters, bind each token to `res_var_dict[token][1][-1]`, evaluate
the expression under those bindings and return the negated result. -/
def compute_obj (objective : String) (res_var_dict : Dict ResVarEntry) :
    Except PyErr Val :=
  match bindTokens res_var_dict (splt objective) [] with
  | .error e => .error e
  | .ok env =>
    match pyEval objective (fun n => lookupA env n) with
    | .error e => .error e
    | .ok result => .ok (-result)

/-- The environment `compute_obj` effectively binds: each result variable's
key mapped to the last element of its history, when both exist. -/
def envOf (res_var_dict : Dict ResVarEntry) (t : String) : Option Val :=
  (lookupA res_var_dict t).bind (fun e => e.listval.getLast?)

instance {ε α : Type} [DecidableEq ε] [DecidableEq α] : DecidableEq (Except ε α) :=
  fun a b =>
    match a, b with
    | .ok x, .ok y =>
      if h : x = y then isTrue (h ▸ rfl) else isFalse (fun hh => h (Except.ok.inj hh))
    | .error x, .error y =>
      if h : x = y then isTrue (h ▸ rfl) else isFalse (fun hh => h (Except.error.inj hh))
    | .ok _, .error _ => isFalse (fun hh => Except.noConfusion hh)
    | .error _, .ok _ => isFalse (fun hh => Except.noConfusion hh)

example : splt "cl/cd" = ["cl", "cd"] := by decide

lemma lookupA_append_left {α : Type} (env tail : Dict α) (key : String) (x : α)
    (h : lookupA env key = some x) : lookupA (env ++ tail) key = some x := by
  induction env with
  | nil => simp [lookupA] at h
  | cons p rest ih =>
    simp only [lookupA, List.cons_append] at h ⊢
    by_cases hk : p.1 = key
    · simpa [hk] using h
    · simp only [hk, if_false] at h ⊢
      exact ih h

lemma lookupA_append_right {α : Type} (env tail : Dict α) (key : String)
    (h : lookupA env key = none) : lookupA (env ++ tail) key = lookupA tail key := by
  induction env with
  | nil => simp [lookupA]
  | cons p rest ih =>
    simp only [lookupA, List.cons_append] at h ⊢
    by_cases hk : p.1 = key
    · simp [hk] at h
    · simp only [hk, if_false] at h ⊢
      exact ih h

lemma lookupA_mem {α : Type} (env : Dict α) (key : String) (x : α)
    (h : lookupA env key = some x) : (key, x) ∈ env := by
  induction env with
  | nil => simp [lookupA] at h
  | cons p rest ih =>
    cases p with
    | mk a b =>
      simp only [lookupA] at h
      by_cases hk : a = key
      · subst hk
        simp only [if_pos rfl] at h
        cases h
        exact List.mem_cons_self _ _
      · simp only [hk, if_false] at h
        exact List.mem_cons_of_mem _ (ih h)

/-- The binding loop succeeds whenever every token is a key of the dictionary
with a non-empty history, and the environment it builds agrees with `envOf`. -/
lemma bindTokens_ok (dict : Dict ResVarEntry) :
    ∀ (vs : List String) (env0 : Dict Val),
      (∀ t ∈ vs, (envOf dict t).isSome) →
      (∀ p ∈ env0, envOf dict p.1 = some p.2) →
      ∃ env, bindTokens dict vs env0 = .ok env ∧
        (∀ p ∈ env, envOf dict p.1 = some p.2) ∧
        (∀ t, (lookupA env0 t).isSome → (lookupA env t).isSome) ∧
        (∀ t ∈ vs, (lookupA env t).isSome) := by
  intro vs
  induction vs with
  | nil =>
    intro env0 _ henv
    exact ⟨env0, rfl, henv, fun t h => h, by simp⟩
  | cons v vs ih =>
    intro env0 hvs henv
    have hv : (envOf dict v).isSome := hvs v (List.mem_cons_self v vs)
    rcases he : lookupA dict v with _ | e
    · rw [envOf, he] at hv
      simp [Option.bind] at hv
    rcases hx : e.listval.getLast? with _ | x
    · rw [envOf, he] at hv
      simp [Option.bind, hx] at hv
    have henv' : ∀ p ∈ env0 ++ [(v, x)], envOf dict p.1 = some p.2 := by
      intro p hp
      rcases List.mem_append.mp hp with hp | hp
      · exact henv p hp
      · rcases List.mem_singleton.mp hp with rfl
        rw [envOf, he]
        simpa [Option.bind] using hx
    obtain ⟨env, hrun, hmem, hmono, hall⟩ :=
      ih (env0 ++ [(v, x)]) (fun t ht => hvs t (List.mem_cons_of_mem _ ht)) henv'
    refine ⟨env, ?_, hmem, ?_, ?_⟩
    · simpa [bindTokens, he, hx] using hrun
    · intro t ht
      rcases hl : lookupA env0 t with _ | y
      · rw [hl] at ht
        simp at ht
      · exact hmono t (by rw [lookupA_append_left env0 [(v, x)] t y hl]; rfl)
    · intro t ht
      rcases List.mem_cons.mp ht with rfl | ht
      · rcases hl : lookupA env0 t with _ | y
        · refine hmono t ?_
          rw [lookupA_append_right env0 [(t, x)] t hl]
          simp [lookupA]
        · exact hmono t (by rw [lookupA_append_left env0 [(t, x)] t y hl]; rfl)
      · exact hall t ht

/-- `evalTok` only looks at the environment's value at the token. -/
lemma evalTok_congr (env1 env2 : String → Option Val) (t : String)
    (h : env1 t = env2 t) : evalTok env1 t = evalTok env2 t := by
  rw [evalTok, evalTok, h]

/-- `evalChain` only looks at the environment's values at the chain tokens. -/
lemma evalChain_congr (env1 env2 : String → Option Val) :
    ∀ (chain : List (Char × String)),
      (∀ p ∈ chain, env1 p.2 = env2 p.2) →
      ∀ total sign cur,
        evalChain env1 total sign cur chain = evalChain env2 total sign cur chain := by
  intro chain
  induction chain with
  | nil => intro _ total sign cur; rfl
  | cons p rest ih =>
    intro h total sign cur
    have ht : evalTok env1 p.2 = evalTok env2 p.2 :=
      evalTok_congr env1 env2 p.2 (h p (List.mem_cons_self p rest))
    have hrest : ∀ q ∈ rest, env1 q.2 = env2 q.2 :=
      fun q hq => h q (List.mem_cons_of_mem _ hq)
    rcases p with ⟨op, t⟩
    simp only [evalChain, ht]
    cases hv : evalTok env2 t with
    | error e => rfl
    | ok v =>
      by_cases h1 : op = '*'
      · simp [h1, ih hrest]
      · by_cases h2 : op = '/'
        · by_cases h3 : v = 0 <;> simp [h1, h2, h3, ih hrest]
        · by_cases h4 : op = '+' <;> simp [h1, h2, h4, ih hrest]

/-- `pyEval` only looks at the environment's values at the split tokens. -/
lemma pyEval_congr (s : String) (env1 env2 : String → Option Val)
    (h : ∀ t ∈ splt s, env1 t = env2 t) : pyEval s env1 = pyEval s env2 := by
  rw [pyEval, pyEval]
  have h0 : evalTok env1 (altSplit s.data).1 = evalTok env2 (altSplit s.data).1 :=
    evalTok_congr env1 env2 _ (h _ (by rw [splt]; exact List.mem_cons_self _ _))
  rw [h0]
  cases hv : evalTok env2 (altSplit s.data).1 with
  | error e => rfl
  | ok v =>
    refine evalChain_congr env1 env2 (altSplit s.data).2 ?_ 0 1 v
    intro p hp
    refine h p.2 ?_
    rw [splt]
    exact List.mem_cons_of_mem _ (List.mem_map_of_mem Prod.snd hp)

/-- Whenever every split token of the objective expression has a binding
(a dictionary entry with non-empty history), `compute_obj` equals the
negation of the Python evaluation of the expression under those bindings. -/
lemma compute_obj_eq (objective : String) (dict : Dict ResVarEntry)
    (h : ∀ t ∈ splt objective, (envOf dict t).isSome) :
    compute_obj objective dict =
      (pyEval objective (envOf dict)).map (fun v => -v) := by
  obtain ⟨env, hrun, hmem, _, hall⟩ :=
    bindTokens_ok dict (splt objective) [] h (by simp)
  have hagree : ∀ t ∈ splt objective, lookupA env t = envOf dict t := by
    intro t ht
    rcases hl : lookupA env t with _ | x
    · have := hall t ht
      rw [hl] at this
      simp at this
    · exact (hmem (t, x) (lookupA_mem env t x hl)).symm
  have hpe : pyEval objective (fun n => lookupA env n) = pyEval objective (envOf dict) :=
    pyEval_congr objective _ _ hagree
  simp only [compute_obj, hrun, hpe]
  cases hv : pyEval objective (envOf dict) <;> rfl

/-- A concrete result-variable dictionary realising the spec's evaluator
test: `cl` with last history value 1/2 and `cd` with last history value
1/10 (0.5 and 0.1). -/
def exampleResDict : Dict ResVarEntry :=
  [("cl", ⟨"cl", [3/10, 1/2], 0, 1, "/cl"⟩),
   ("cd", ⟨"cd", [1/5, 1/10], 0, 1, "/cd"⟩)]

attribute [local semireducible] Rat.mul Rat.add Rat.sub Rat.inv in
lemma compute_obj_clcd : compute_obj "cl/cd" exampleResDict = .ok (-5) := by decide

/-- C1: for every objective expression whose split tokens all have a
dictionary entry with non-empty history, `compute_obj` returns exactly the
negation of the arithmetic value of the expression with each token bound to
the last element of its history; in particular for `"cl/cd"` with `cl` last
history value 1/2 and `cd` last history value 1/10 it returns `-5`. -/
theorem C1_compute_obj_negated_eval :
    (∀ (objective : String) (dict : Dict ResVarEntry),
        (∀ t ∈ splt objective, (envOf dict t).isSome) →
        compute_obj objective dict =
          (pyEval objective (envOf dict)).map (fun v => -v))
    ∧ compute_obj "cl/cd" exampleResDict = .ok (-5) :=
  ⟨compute_obj_eq, compute_obj_clcd⟩

/-- Witness for C1 at the concrete input `"cl/cd"` with the example
dictionary. -/
theorem C1_compute_obj_negated_eval_witness :
    (∀ t ∈ splt "cl/cd", (envOf exampleResDict t).isSome)
    ∧ compute_obj "cl/cd" exampleResDict =
        (pyEval "cl/cd" (envOf exampleResDict)).map (fun v => -v) :=
  ⟨by decide, C1_compute_obj_negated_eval.1 "cl/cd" exampleResDict (by decide)⟩

/-- The binding loop reports the first token that is not a dictionary key,
provided every token that is a key has a non-empty history. -/
lemma bindTokens_missing (dict : Dict ResVarEntry) :
    ∀ (vs : List String) (env0 : Dict Val),
      (∃ t ∈ vs, lookupA dict t = none) →
      (∀ t ∈ vs, lookupA dict t = none ∨ (envOf dict t).isSome) →
      ∃ t', t' ∈ vs ∧ lookupA dict t' = none ∧
        bindTokens dict vs env0 = .error (.undefinedVariable t') := by
  intro vs
  induction vs with
  | nil =>
    intro env0 hmiss _
    simp at hmiss
  | cons v vs ih =>
    intro env0 hmiss hhist
    rcases he : lookupA dict v with _ | e
    · exact ⟨v, List.mem_cons_self v vs, he, by simp [bindTokens, he]⟩
    · have hv : (envOf dict v).isSome := by
        rcases hhist v (List.mem_cons_self v vs) with h | h
        · rw [he] at h; cases h
        · exact h
      rw [envOf, he] at hv
      rcases hx : e.listval.getLast? with _ | x
      · simp [Option.bind, hx] at hv
      have hmiss' : ∃ t ∈ vs, lookupA dict t = none := by
        rcases hmiss with ⟨t, ht, htn⟩
        rcases List.mem_cons.mp ht with rfl | ht
        · rw [he] at htn; cases htn
        · exact ⟨t, ht, htn⟩
      obtain ⟨t', ht', htn', hrun⟩ :=
        ih (env0 ++ [(v, x)]) hmiss' (fun t ht => hhist t (List.mem_cons_of_mem _ ht))
      refine ⟨t', List.mem_cons_of_mem _ ht', htn', ?_⟩
      simpa [bindTokens, he, hx] using hrun

/-- C5 (amended): if the objective expression contains a token that is not a
key of the result-variable dictionary, and every token that is a key has a
non-empty history, then `compute_obj` fails with the undefined-variable
error (naming the first missing token) rather than silently defaulting. -/
theorem C5_unknown_token_fails (objective : String) (dict : Dict ResVarEntry)
    (hmiss : ∃ t ∈ splt objective, lookupA dict t = none)
    (hhist : ∀ t ∈ splt objective, lookupA dict t = none ∨ (envOf dict t).isSome) :
    ∃ t', t' ∈ splt objective ∧ lookupA dict t' = none ∧
      compute_obj objective dict = .error (.undefinedVariable t') := by
  obtain ⟨t', ht', htn', hrun⟩ := bindTokens_missing dict (splt objective) [] hmiss hhist
  exact ⟨t', ht', htn', by simp [compute_obj, hrun]⟩

/-- Witness for C5 at the concrete input `"foo/cd"` with `foo` undeclared. -/
theorem C5_unknown_token_fails_witness :
    ∃ t', t' ∈ splt "foo/cd" ∧
      lookupA exampleResDict t' = none ∧
      compute_obj "foo/cd" exampleResDict = .error (.undefinedVariable t') :=
  C5_unknown_token_fails "foo/cd" exampleResDict (by decide) (by decide)

/-- C5 counterexample to the unrestricted claim: with objective `"cl+foo"`
(`foo` not a key) and a dictionary state in which `cl` has an empty history,
`compute_obj` fails with the empty-history index error, not the
undefined-variable error. -/
theorem C5_counterexample_empty_history :
    compute_obj "cl+foo" [("cl", ⟨"cl", [], 0, 1, "/cl"⟩)] =
      .error .indexError := by decide

/-- The process-wide mutable state of the optimisation loop: the call counter
of `one_iteration` and the two variable dictionaries. -/
structure OptState where
  counter : Nat
  design_var_dict : Dict DesignVarEntry
  res_var_dict : Dict ResVarEntry
deriving DecidableEq, Repr

/-- Modelled from the spec: `update_res_var_dict` (defined in
`ceasiompy/Optimisation/func/dictionnary.py`, which is not part of this
excerpt) reads, for every entry of `res_var_dict`, the current value at the
entry's get path from the freshly produced result document and appends it to
the entry's history; a missing path fails with the path-not-found error,
propagated and not retried. -/
def update_res_var_dict (doc : String → Option Val) :
    Dict ResVarEntry → Except PyErr (Dict ResVarEntry)
  | [] => .ok []
  | (k, e) :: rest =>
    match doc e.getcommand with
    | none => .error (.pathNotFound e.getcommand)
    | some w =>
      match update_res_var_dict doc rest with
      | .error er => .error er
      | .ok rest' => .ok ((k, { e with listval := e.listval ++ [w] }) :: rest')

/-- `one_iteration` of the source, with the external effects abstracted:
`chain` is the combined outcome of the XML staging steps and the module
sub-workflow run (`wkf.run_subworkflow` and the file copies around it), and
`doc` is the result document of the last module, read per get path.  The
counter is incremented first; a chain failure propagates with the result
dictionary untouched; on success the result histories are updated and the
objective is computed. -/
def one_iteration (chain : Except PyErr Unit) (doc : String → Option Val)
    (objective : String) (st : OptState) : Except PyErr Val × OptState :=
  let st1 : OptState := { st with counter := st.counter + 1 }
  match chain with
  | .error e => (.error e, st1)
  | .ok _ =>
    match update_res_var_dict doc st1.res_var_dict with
    | .error e => (.error e, st1)
    | .ok res' =>
      let st2 : OptState := { st1 with res_var_dict := res' }
      match compute_obj objective st2.res_var_dict with
      | .error e => (.error e, st2)
      | .ok v => (.ok v, st2)

/-- The design-variable loop at the head of `objective_function.compute`:
each input port's proposed value is appended to the corresponding entry's
history. -/
def appendDesign (inputs : String → Val) (d : Dict DesignVarEntry) :
    Dict DesignVarEntry :=
  d.map (fun p => (p.1, { p.2 with listval := p.2.listval ++ [inputs p.1] }))

/-- `objective_function.compute` of the source: append the proposed design
point to the design histories, then run `one_iteration`; the returned value
is the objective output port's value. -/
def objective_compute (inputs : String → Val) (chain : Except PyErr Unit)
    (doc : String → Option Val) (objective : String) (st : OptState) :
    Except PyErr Val × OptState :=
  one_iteration chain doc objective
    { st with design_var_dict := appendDesign inputs st.design_var_dict }

/-- `constraint.compute` of the source: each result variable's output port,
keyed by display name, is set to the last element of its history. -/
def constraint_compute (st : OptState) : List (String × Option Val) :=
  st.res_var_dict.map (fun p => (p.2.name, p.2.listval.getLast?))

/-- `objective_function.setup` of the source: one input port per design
variable with initial value `listval[0]`, and one output port named by the
objective expression. -/
def objective_setup (objective : String) (d : Dict DesignVarEntry) :
    List (String × Option Val) × List String :=
  (d.map (fun p => (p.1, p.2.listval.head?)), [objective])

/-- `constraint.setup` of the source: one output port per result variable,
named by the entry's display name, with initial value `listval[0]`. -/
def constraint_setup (r : Dict ResVarEntry) : List (String × Option Val) :=
  r.map (fun p => (p.2.name, p.2.listval.head?))

/-- Modelled from the spec: the optimisation framework's dependency graph
evaluates the objective component before the constraint component within each
iteration, so one framework iteration is the objective evaluation followed by
the constraint evaluation of the resulting state. -/
def framework_iteration (inputs : String → Val) (chain : Except PyErr Unit)
    (doc : String → Option Val) (objective : String) (st : OptState) :
    (Except PyErr Val × OptState) × List (String × Option Val) :=
  let r := objective_compute inputs chain doc objective st
  (r, constraint_compute r.2)

/-- A successful `update_res_var_dict` appends, entry by entry, exactly the
value the result document holds at the entry's get path. -/
lemma update_res_var_dict_ok (doc : String → Option Val) :
    ∀ (r r' : Dict ResVarEntry), update_res_var_dict doc r = .ok r' →
      List.Forall₂ (fun p p' => p'.1 = p.1 ∧ p'.2.name = p.2.name ∧
        p'.2.getcommand = p.2.getcommand ∧
        ∃ w, doc p.2.getcommand = some w ∧ p'.2.listval = p.2.listval ++ [w]) r r' := by
  intro r
  induction r with
  | nil =>
    intro r' h
    simp only [update_res_var_dict] at h
    cases h
    exact List.Forall₂.nil
  | cons p rest ih =>
    intro r' h
    cases p with
    | mk k e =>
      simp only [update_res_var_dict] at h
      cases hdoc : doc e.getcommand with
      | none => rw [hdoc] at h; simp at h
      | some w =>
        rw [hdoc] at h
        cases hrec : update_res_var_dict doc rest with
        | error er => rw [hrec] at h; simp at h
        | ok rest' =>
          rw [hrec] at h
          cases h
          exact List.Forall₂.cons ⟨rfl, rfl, rfl, w, hdoc, rfl⟩ (ih rest' hrec)

/-- Decomposition of a successful `objective_function.compute`: the design
histories were extended with the proposed point before the iteration driver
ran, the counter advanced, the result histories were updated from the result
document, and the returned value is `compute_obj` of the updated state. -/
lemma objective_compute_ok_parts (inputs : String → Val) (chain : Except PyErr Unit)
    (doc : String → Option Val) (objective : String) (st : OptState) (v : Val)
    (st' : OptState)
    (h : objective_compute inputs chain doc objective st = (.ok v, st')) :
    st'.design_var_dict = appendDesign inputs st.design_var_dict ∧
    st'.counter = st.counter + 1 ∧
    update_res_var_dict doc st.res_var_dict = .ok st'.res_var_dict ∧
    compute_obj objective st'.res_var_dict = .ok v := by
  simp only [objective_compute, one_iteration] at h
  cases chain with
  | error e => simp at h
  | ok u =>
    simp only at h
    cases hupd : update_res_var_dict doc st.res_var_dict with
    | error e => rw [hupd] at h; simp at h
    | ok res' =>
      rw [hupd] at h
      simp only at h
      cases hobj : compute_obj objective res' with
      | error e => rw [hobj] at h; simp at h
      | ok v' =>
        rw [hobj] at h
        simp only [Prod.mk.injEq, Except.ok.injEq] at h
        rcases h with ⟨rfl, rfl⟩
        exact ⟨rfl, rfl, rfl, hobj⟩

/-- C3: if the configured module chain fails during `one_iteration`, the
iteration aborts with the error propagated unchanged and no value is appended
to any result variable's history: the post-state's result dictionary is the
pre-state's, since `update_res_var_dict` runs only after the whole chain
succeeded. -/
theorem C3_chain_failure_no_partial_write (chain : Except PyErr Unit)
    (doc : String → Option Val) (objective : String) (st : OptState) (e : PyErr)
    (h : chain = .error e) :
    (one_iteration chain doc objective st).1 = .error e ∧
    (one_iteration chain doc objective st).2.res_var_dict = st.res_var_dict := by
  subst h
  exact ⟨rfl, rfl⟩

/-- Witness for C3: a concrete failed module step. -/
theorem C3_chain_failure_no_partial_write_witness :
    (one_iteration (.error (.moduleError "run_subworkflow failed")) (fun _ => none)
        "cl/cd" ⟨0, [], exampleResDict⟩).1 =
      .error (.moduleError "run_subworkflow failed") ∧
    (one_iteration (.error (.moduleError "run_subworkflow failed")) (fun _ => none)
        "cl/cd" ⟨0, [], exampleResDict⟩).2.res_var_dict =
      (⟨0, [], exampleResDict⟩ : OptState).res_var_dict :=
  C3_chain_failure_no_partial_write (.error (.moduleError "run_subworkflow failed"))
    (fun _ => none) "cl/cd" ⟨0, [], exampleResDict⟩ (.moduleError "run_subworkflow failed") rfl

/-- C2: within one framework iteration (objective evaluation, then constraint
evaluation), every value the constraint adapter reads is exactly the value
appended to that result variable's history by this same iteration's objective
evaluation. -/
theorem C2_constraint_reads_this_iterations_values
    (inputs : String → Val) (chain : Except PyErr Unit) (doc : String → Option Val)
    (objective : String) (st : OptState) (v : Val)
    (h : (framework_iteration inputs chain doc objective st).1.1 = .ok v) :
    List.Forall₂
      (fun (p : String × ResVarEntry) (q : String × Option Val) =>
        q.1 = p.2.name ∧ ∃ w, doc p.2.getcommand = some w ∧ q.2 = some w)
      st.res_var_dict
      (framework_iteration inputs chain doc objective st).2 ∧
    List.Forall₂
      (fun (p p' : String × ResVarEntry) =>
        ∃ w, doc p.2.getcommand = some w ∧ p'.2.listval = p.2.listval ++ [w])
      st.res_var_dict
      (framework_iteration inputs chain doc objective st).1.2.res_var_dict := by
  have hoc : objective_compute inputs chain doc objective st =
      (.ok v, (objective_compute inputs chain doc objective st).2) := by
    rw [← h]; rfl
  obtain ⟨-, -, hupd, -⟩ := objective_compute_ok_parts inputs chain doc objective st v _ hoc
  have hf2 := update_res_var_dict_ok doc st.res_var_dict _ hupd
  constructor
  · show List.Forall₂ _ st.res_var_dict
      (constraint_compute (objective_compute inputs chain doc objective st).2)
    rw [constraint_compute]
    rw [List.forall₂_map_right_iff]
    refine hf2.imp ?_
    rintro p p' ⟨-, hname, -, w, hw, hl⟩
    exact ⟨hname, w, hw, by rw [hl, List.getLast?_concat]⟩
  · exact hf2.imp (fun p p' h => h.2.2.2)

attribute [local semireducible] Rat.mul Rat.add Rat.sub Rat.inv in
lemma hC2ev :
    (framework_iteration (fun _ => 2) (.ok ()) (fun _ => some 1) "cl"
        ⟨0, [("x", ⟨"x", [0], 0, 10, "/sx", "/gx"⟩)], [("cl", ⟨"cl", [1], 0, 1, "/cl"⟩)]⟩).1.1 =
      .ok (-1) := by decide

/-- Witness for C2: one concrete successful iteration with objective `"cl"`. -/
theorem C2_constraint_reads_this_iterations_values_witness :
    ((framework_iteration (fun _ => 2) (.ok ()) (fun _ => some 1) "cl"
        ⟨0, [("x", ⟨"x", [0], 0, 10, "/sx", "/gx"⟩)], [("cl", ⟨"cl", [1], 0, 1, "/cl"⟩)]⟩).1.1 =
      .ok (-1)) ∧
    (List.Forall₂
      (fun (p : String × ResVarEntry) (q : String × Option Val) =>
        q.1 = p.2.name ∧ ∃ w, (fun _ => some 1) p.2.getcommand = some w ∧ q.2 = some w)
      [("cl", ⟨"cl", [1], 0, 1, "/cl"⟩)]
      (framework_iteration (fun _ => 2) (.ok ()) (fun _ => some 1) "cl"
        ⟨0, [("x", ⟨"x", [0], 0, 10, "/sx", "/gx"⟩)], [("cl", ⟨"cl", [1], 0, 1, "/cl"⟩)]⟩).2 ∧
    List.Forall₂
      (fun (p p' : String × ResVarEntry) =>
        ∃ w, (fun _ => some 1) p.2.getcommand = some w ∧ p'.2.listval = p.2.listval ++ [w])
      [("cl", ⟨"cl", [1], 0, 1, "/cl"⟩)]
      (framework_iteration (fun _ => 2) (.ok ()) (fun _ => some 1) "cl"
        ⟨0, [("x", ⟨"x", [0], 0, 10, "/sx", "/gx"⟩)], [("cl", ⟨"cl", [1], 0, 1, "/cl"⟩)]⟩).1.2.res_var_dict) :=
  ⟨hC2ev, C2_constraint_reads_this_iterations_values (fun _ => 2) (.ok ()) (fun _ => some 1)
    "cl" ⟨0, [("x", ⟨"x", [0], 0, 10, "/sx", "/gx"⟩)], [("cl", ⟨"cl", [1], 0, 1, "/cl"⟩)]⟩ (-1) hC2ev⟩

/-- The optimizer driver's successive objective evaluations, starting at
iteration index `i`: run `n` further evaluations of
`objective_function.compute`, each with its own proposed design point, chain
outcome and result document; a failed evaluation aborts the run. -/
def run_n (inputsSeq : Nat → String → Val) (chainSeq : Nat → Except PyErr Unit)
    (docSeq : Nat → String → Option Val) (objective : String) :
    Nat → Nat → OptState → Except PyErr OptState
  | _, 0, st => .ok st
  | i, n+1, st =>
    match objective_compute (inputsSeq i) (chainSeq i) (docSeq i) objective st with
    | (.error e, _) => .error e
    | (.ok _, st') => run_n inputsSeq chainSeq docSeq objective (i+1) n st'

/-- Composition of two entrywise list relations. -/
lemma forall₂_comp {α β γ : Type} {r1 : α → β → Prop} {r2 : β → γ → Prop}
    {r3 : α → γ → Prop} (hcomp : ∀ a b c, r1 a b → r2 b c → r3 a c) :
    ∀ {l1 : List α} {l2 : List β} {l3 : List γ},
      List.Forall₂ r1 l1 l2 → List.Forall₂ r2 l2 l3 → List.Forall₂ r3 l1 l3 := by
  intro l1 l2 l3 h12
  induction h12 generalizing l3 with
  | nil =>
    intro h23
    cases h23
    exact List.Forall₂.nil
  | cons hab h12' ih =>
    intro h23
    cases h23 with
    | cons hbc h23' =>
      exact List.Forall₂.cons (hcomp _ _ _ hab hbc) (ih h23')

/-- Right-to-left membership transfer along a `Forall₂`. -/
lemma forall₂_mem_right {α β : Type} {r : α → β → Prop} :
    ∀ {l1 : List α} {l2 : List β}, List.Forall₂ r l1 l2 →
      ∀ b ∈ l2, ∃ a ∈ l1, r a b := by
  intro l1 l2 h
  induction h with
  | nil => intro b hb; cases hb
  | cons hab h' ih =>
    intro b hb
    rcases List.mem_cons.mp hb with rfl | hb
    · exact ⟨_, List.mem_cons_self _ _, hab⟩
    · rcases ih b hb with ⟨a, ha, har⟩
      exact ⟨a, List.mem_cons_of_mem _ ha, har⟩

/-- One successful `objective_function.compute` extends every design history
by exactly the proposed input value and every result history by exactly one
freshly read value. -/
lemma objective_compute_step (inputs : String → Val) (chain : Except PyErr Unit)
    (doc : String → Option Val) (objective : String) (st : OptState) (v : Val)
    (st' : OptState)
    (h : objective_compute inputs chain doc objective st = (.ok v, st')) :
    List.Forall₂
      (fun p p' => p'.1 = p.1 ∧ ∃ t, p'.2.listval = p.2.listval ++ t ∧ t.length = 1)
      st.design_var_dict st'.design_var_dict ∧
    List.Forall₂
      (fun p p' => p'.1 = p.1 ∧ ∃ t, p'.2.listval = p.2.listval ++ t ∧ t.length = 1)
      st.res_var_dict st'.res_var_dict := by
  obtain ⟨hdes, -, hupd, -⟩ := objective_compute_ok_parts inputs chain doc objective st v st' h
  constructor
  · rw [hdes, appendDesign, List.forall₂_map_right_iff]
    refine List.forall₂_same.mpr ?_
    intro p _
    exact ⟨rfl, [inputs p.1], rfl, rfl⟩
  · refine (update_res_var_dict_ok doc st.res_var_dict st'.res_var_dict hupd).imp ?_
    rintro p p' ⟨h1, -, -, w, -, hl⟩
    exact ⟨h1, [w], hl, rfl⟩

/-- Across `n` completed driver iterations, every history only grows
(append-only) and grows by exactly `n` values. -/
lemma run_n_histories (inputsSeq : Nat → String → Val)
    (chainSeq : Nat → Except PyErr Unit) (docSeq : Nat → String → Option Val)
    (objective : String) :
    ∀ (n i : Nat) (st st' : OptState),
      run_n inputsSeq chainSeq docSeq objective i n st = .ok st' →
      List.Forall₂
        (fun p p' => p'.1 = p.1 ∧ ∃ t, p'.2.listval = p.2.listval ++ t ∧ t.length = n)
        st.design_var_dict st'.design_var_dict ∧
      List.Forall₂
        (fun p p' => p'.1 = p.1 ∧ ∃ t, p'.2.listval = p.2.listval ++ t ∧ t.length = n)
        st.res_var_dict st'.res_var_dict := by
  intro n
  induction n with
  | zero =>
    intro i st st' h
    simp only [run_n] at h
    cases h
    constructor <;>
      exact List.forall₂_same.mpr (fun p _ => ⟨rfl, [], by simp, rfl⟩)
  | succ n ih =>
    intro i st st' h
    simp only [run_n] at h
    cases hoc : objective_compute (inputsSeq i) (chainSeq i) (docSeq i) objective st with
    | mk r stm =>
      rw [hoc] at h
      cases r with
      | error e => simp at h
      | ok v =>
        simp only at h
        obtain ⟨hd1, hr1⟩ := objective_compute_step _ _ _ _ _ _ _ hoc
        obtain ⟨hd2, hr2⟩ := ih (i+1) stm st' h
        have hcomp : ∀ (p q s : String × DesignVarEntry),
            (q.1 = p.1 ∧ ∃ t, q.2.listval = p.2.listval ++ t ∧ t.length = 1) →
            (s.1 = q.1 ∧ ∃ t, s.2.listval = q.2.listval ++ t ∧ t.length = n) →
            (s.1 = p.1 ∧ ∃ t, s.2.listval = p.2.listval ++ t ∧ t.length = n + 1) := by
          rintro p q s ⟨h1, t1, ht1, hl1⟩ ⟨h2, t2, ht2, hl2⟩
          refine ⟨h2.trans h1, t1 ++ t2, ?_, ?_⟩
          · rw [ht2, ht1, List.append_assoc]
          · rw [List.length_append, hl1, hl2]; omega
        have hcompr : ∀ (p q s : String × ResVarEntry),
            (q.1 = p.1 ∧ ∃ t, q.2.listval = p.2.listval ++ t ∧ t.length = 1) →
            (s.1 = q.1 ∧ ∃ t, s.2.listval = q.2.listval ++ t ∧ t.length = n) →
            (s.1 = p.1 ∧ ∃ t, s.2.listval = p.2.listval ++ t ∧ t.length = n + 1) := by
          rintro p q s ⟨h1, t1, ht1, hl1⟩ ⟨h2, t2, ht2, hl2⟩
          refine ⟨h2.trans h1, t1 ++ t2, ?_, ?_⟩
          · rw [ht2, ht1, List.append_assoc]
          · rw [List.length_append, hl1, hl2]; omega
        exact ⟨forall₂_comp hcomp hd1 hd2, forall₂_comp hcompr hr1 hr2⟩

/-- C4: histories are append-only (the old history is always a prefix of the
new one, nothing is removed or overwritten), each `objective_function.compute`
appends exactly one value to every design history before invoking the
iteration driver, and after `N` completed iterations every design history
seeded with a single initial value has length `N + 1`. -/
theorem C4_histories_append_only (inputsSeq : Nat → String → Val)
    (chainSeq : Nat → Except PyErr Unit) (docSeq : Nat → String → Option Val)
    (objective : String) (N : Nat) (st0 st' : OptState)
    (h : run_n inputsSeq chainSeq docSeq objective 0 N st0 = .ok st') :
    (∀ (inputs : String → Val) (st : OptState),
      objective_compute inputs (chainSeq 0) (docSeq 0) objective st =
        one_iteration (chainSeq 0) (docSeq 0) objective
          { st with design_var_dict := appendDesign inputs st.design_var_dict } ∧
      List.Forall₂
        (fun p p' => p'.1 = p.1 ∧ p'.2.listval = p.2.listval ++ [inputs p.1])
        st.design_var_dict (appendDesign inputs st.design_var_dict)) ∧
    List.Forall₂
      (fun p p' => p'.1 = p.1 ∧ ∃ t, p'.2.listval = p.2.listval ++ t ∧ t.length = N)
      st0.design_var_dict st'.design_var_dict ∧
    List.Forall₂
      (fun p p' => p'.1 = p.1 ∧ ∃ t, p'.2.listval = p.2.listval ++ t ∧ t.length = N)
      st0.res_var_dict st'.res_var_dict ∧
    ((∀ p ∈ st0.design_var_dict, p.2.listval.length = 1) →
      ∀ p' ∈ st'.design_var_dict, p'.2.listval.length = N + 1) := by
  obtain ⟨hdes, hres⟩ := run_n_histories inputsSeq chainSeq docSeq objective N 0 st0 st' h
  refine ⟨?_, hdes, hres, ?_⟩
  · intro inputs st
    refine ⟨rfl, ?_⟩
    rw [appendDesign, List.forall₂_map_right_iff]
    exact List.forall₂_same.mpr (fun p _ => ⟨rfl, rfl⟩)
  · intro hseed p' hp'
    obtain ⟨p, hp, -, t, ht, hlen⟩ := forall₂_mem_right hdes p' hp'
    rw [ht, List.length_append, hseed p hp, hlen]
    omega

/-- Concrete proposed design points for the witness run: always 2. -/
def wInputs : Nat → String → Val := fun _ _ => 2

/-- Concrete chain outcomes for the witness run: every step succeeds. -/
def wChain : Nat → Except PyErr Unit := fun _ => .ok ()

/-- Concrete result documents for the witness run: every path holds 1. -/
def wDoc : Nat → String → Option Val := fun _ _ => some 1

/-- Witness initial state: one design variable `x` seeded with `[0]`, one
result variable `cl` seeded with `[1]`. -/
def wSt0 : OptState :=
  ⟨0, [("x", ⟨"x", [0], 0, 10, "/sx", "/gx"⟩)], [("cl", ⟨"cl", [1], 0, 1, "/cl"⟩)]⟩

/-- Witness final state after two completed iterations. -/
def wSt2 : OptState :=
  ⟨2, [("x", ⟨"x", [0, 2, 2], 0, 10, "/sx", "/gx"⟩)], [("cl", ⟨"cl", [1, 1, 1], 0, 1, "/cl"⟩)]⟩

attribute [local semireducible] Rat.mul Rat.add Rat.sub Rat.inv in
lemma run2_eval : run_n wInputs wChain wDoc "cl" 0 2 wSt0 = .ok wSt2 := by decide

/-- Witness for C4: a concrete two-iteration run in which the seeded design
history ends with length 2 + 1. -/
theorem C4_histories_append_only_witness :
    run_n wInputs wChain wDoc "cl" 0 2 wSt0 = .ok wSt2 ∧
    (("x", (⟨"x", [0, 2, 2], 0, 10, "/sx", "/gx"⟩ : DesignVarEntry)) :
        String × DesignVarEntry).2.listval.length = 2 + 1 :=
  ⟨run2_eval,
   (C4_histories_append_only wInputs wChain wDoc "cl" 2 wSt0 wSt2 run2_eval).2.2.2
     (by decide) ("x", ⟨"x", [0, 2, 2], 0, 10, "/sx", "/gx"⟩) (by decide)⟩

/-- C6: the objective adapter's setup declares exactly one input port per
design variable, each carrying the first element of the variable's history
as initial value, and a single output port named by the objective expression;
the constraint adapter exposes exactly one output port per result variable
and on every compute sets each output to the last (most recent) element of
that variable's history. -/
theorem C6_adapter_ports (objective : String) (d : Dict DesignVarEntry)
    (r : Dict ResVarEntry) (st : OptState) :
    (objective_setup objective d).1.length = d.length ∧
    List.Forall₂ (fun p q => q = (p.1, p.2.listval.head?)) d (objective_setup objective d).1 ∧
    (objective_setup objective d).2 = [objective] ∧
    (constraint_setup r).length = r.length ∧
    List.Forall₂ (fun p q => q = (p.2.name, p.2.listval.head?)) r (constraint_setup r) ∧
    (constraint_compute st).length = st.res_var_dict.length ∧
    List.Forall₂ (fun p q => q = (p.2.name, p.2.listval.getLast?))
      st.res_var_dict (constraint_compute st) := by
  refine ⟨?_, ?_, rfl, ?_, ?_, ?_, ?_⟩
  · rw [objective_setup]
    exact List.length_map d _
  · rw [objective_setup, List.forall₂_map_right_iff]
    exact List.forall₂_same.mpr (fun p _ => rfl)
  · rw [constraint_setup]
    exact List.length_map r _
  · rw [constraint_setup, List.forall₂_map_right_iff]
    exact List.forall₂_same.mpr (fun p _ => rfl)
  · rw [constraint_compute]
    exact List.length_map st.res_var_dict _
  · rw [constraint_compute, List.forall₂_map_right_iff]
    exact List.forall₂_same.mpr (fun p _ => rfl)

/-- The process-wide routine configuration `Rt` (`opf.Routine`). -/
structure Routine where
  type : String
  modules : List String
  driver : String
  objective : String
  date : String
deriving DecidableEq, Repr

/-- The two openmdao driver configurations `run_routine` can build: the DOE
driver with a uniform generator of 10 samples, or the SciPy optimizer driver
with the configured algorithm identifier and an iteration cap of 10. -/
inductive DriverChoice where
  | doe (num_samples : Nat)
  | scipy (optimizer : String) (maxiter : Nat)
deriving DecidableEq, Repr

/-- The driver selection of `run_routine`: the DOE driver when `Rt.type` is
`'DoE'`, the SciPy optimizer driver (algorithm `Rt.driver`, maxiter 10) when
`Rt.type` is `'Optim'`; any other routine type leaves the driver unset. -/
def chooseDriver (rt : Routine) : Option DriverChoice :=
  if rt.type = "DoE" then some (.doe 10)
  else if rt.type = "Optim" then some (.scipy rt.driver 10)
  else none

/-- The field assignments at the head of `routine_setup`: the routine type
and module list come from the arguments, the optimizer algorithm is
hard-coded to 'COBYLA' and the objective expression to 'cl/cd'. -/
def routine_setup_config (modules : List String) (routine_type : String)
    (date : String) : Routine :=
  ⟨routine_type, modules, "COBYLA", "cl/cd", date⟩

/-- Modelled from the spec: the external optimizer driver evaluates design
points one at a time and stops as soon as its convergence test succeeds or
the iteration cap (`maxiter`) is reached; `driverLoop conv fuel n` returns
the index after running with `fuel` remaining iterations from index `n`. -/
def driverLoop (converged : Nat → Bool) : Nat → Nat → Nat
  | 0, n => n
  | fuel+1, n =>
    match converged n with
    | true => n
    | false => driverLoop converged fuel (n + 1)

lemma driverLoop_le (converged : Nat → Bool) :
    ∀ (fuel n : Nat), driverLoop converged fuel n ≤ fuel + n := by
  intro fuel
  induction fuel with
  | zero => intro n; simp [driverLoop]
  | succ fuel ih =>
    intro n
    cases hc : converged n with
    | true =>
      simp only [driverLoop, hc]
      omega
    | false =>
      simp only [driverLoop, hc]
      have := ih (n + 1)
      omega

/-- C7: `routine_setup` unconditionally sets the optimizer algorithm to
'COBYLA' and the objective expression to 'cl/cd' regardless of its arguments;
in the optimizer case the driver is the SciPy driver with an iteration cap
of 10, and the driver loop never runs past that cap. -/
theorem C7_hardcoded_routine :
    (∀ (modules : List String) (routine_type date : String),
      (routine_setup_config modules routine_type date).driver = "COBYLA" ∧
      (routine_setup_config modules routine_type date).objective = "cl/cd") ∧
    (∀ (modules : List String) (date : String),
      chooseDriver (routine_setup_config modules "Optim" date) =
        some (.scipy "COBYLA" 10)) ∧
    (∀ (converged : Nat → Bool), driverLoop converged 10 0 ≤ 10) :=
  ⟨fun _ _ _ => ⟨rfl, rfl⟩,
   fun _ _ => rfl,
   fun converged => driverLoop_le converged 10 0⟩

/-- C8 counterexample: the routine-kind strings of the claim are not the ones
the code tests for; with `Rt.type = 'DesignOfExperiments'` (or
`'Optimisation'`) neither branch of `run_routine` matches and no driver is
selected. -/
theorem C8_counterexample_kind_strings :
    chooseDriver ⟨"DesignOfExperiments", ["WeightConventional"], "COBYLA", "cl/cd", "d"⟩ =
      none ∧
    chooseDriver ⟨"Optimisation", ["WeightConventional"], "COBYLA", "cl/cd", "d"⟩ =
      none := by decide

/-- C8 (amended): the routine kinds the code recognises are exactly the two
strings `'DoE'` and `'Optim'`; `run_routine` selects the design-of-experiments
driver for `'DoE'` and the SciPy optimizer driver with the configured
algorithm identifier for `'Optim'`, and selects no driver otherwise. -/
theorem C8_driver_selection (rt : Routine) (d : DriverChoice) :
    chooseDriver rt = some d ↔
      (rt.type = "DoE" ∧ d = .doe 10) ∨
      (rt.type = "Optim" ∧ d = .scipy rt.driver 10) := by
  rw [chooseDriver]
  by_cases h1 : rt.type = "DoE"
  · simp [h1]
    constructor
    · intro h; exact h.symm
    · intro h; exact h.symm
  · by_cases h2 : rt.type = "Optim"
    · simp [h1, h2]
      constructor
      · intro h; exact h.symm
      · intro h; exact h.symm
    · simp [h1, h2]

/-- Witness for C8: the `'Optim'` kind selects the SciPy driver with the
configured algorithm. -/
theorem C8_driver_selection_witness :
    chooseDriver ⟨"Optim", ["WeightConventional"], "COBYLA", "cl/cd", "d"⟩ =
      some (.scipy "COBYLA" 10) :=
  (C8_driver_selection ⟨"Optim", ["WeightConventional"], "COBYLA", "cl/cd", "d"⟩
    (.scipy "COBYLA" 10)).mpr (Or.inr ⟨rfl, rfl⟩)

/-- The constraint-registration loop of `run_routine`: a bounded constraint
`('const.' + name, lower -0.1, upper 0.1)` is registered for each result
variable whose display name is `"cms"`, and for no other entry. -/
def registeredConstraints (r : Dict ResVarEntry) : List (String × Val × Val) :=
  (r.filter (fun p => p.2.name = "cms")).map
    (fun p => ("const." ++ p.2.name, (-(1/10) : Val), ((1/10) : Val)))

/-- C9: every constraint `run_routine` registers is exactly the bounded
constraint `('const.cms', -0.1, 0.1)`; constraints exist precisely when some
result variable is displayed as `cms`, so the declared bounds of every other
result variable are never registered. -/
theorem C9_only_cms_constraint (r : Dict ResVarEntry) :
    (∀ c ∈ registeredConstraints r,
      c = ("const.cms", (-(1/10) : Val), ((1/10) : Val))) ∧
    (registeredConstraints r = [] ↔ ∀ p ∈ r, p.2.name ≠ "cms") := by
  constructor
  · intro c hc
    rw [registeredConstraints] at hc
    rcases List.mem_map.mp hc with ⟨p, hp, rfl⟩
    have hname : p.2.name = "cms" := by
      have := List.of_mem_filter hp
      simpa using this
    rw [hname]
    rfl
  · rw [registeredConstraints]
    constructor
    · intro h p hp hname
      have hmem : p ∈ r.filter (fun p => p.2.name = "cms") :=
        List.mem_filter.mpr ⟨hp, by simpa using hname⟩
      rw [List.map_eq_nil_iff] at h
      rw [h] at hmem
      cases hmem
    · intro h
      have : r.filter (fun p => p.2.name = "cms") = [] := by
        rw [List.filter_eq_nil_iff]
        intro p hp
        simpa using h p hp
      rw [this]
      rfl

/-- Witness for C9: a dictionary with one `cms` entry and one other entry. -/
theorem C9_only_cms_constraint_witness :
    (∀ c ∈ registeredConstraints
        [("cl", ⟨"cl", [1], 0, 1, "/cl"⟩), ("cms", ⟨"cms", [0], -1, 1, "/cms"⟩)],
      c = ("const.cms", (-(1/10) : Val), ((1/10) : Val))) ∧
    (registeredConstraints
        [("cl", ⟨"cl", [1], 0, 1, "/cl"⟩), ("cms", ⟨"cms", [0], -1, 1, "/cms"⟩)] = [] ↔
      ∀ p ∈ [(("cl", ⟨"cl", [1], 0, 1, "/cl"⟩) : String × ResVarEntry),
             ("cms", ⟨"cms", [0], -1, 1, "/cms"⟩)], p.2.name ≠ "cms") :=
  C9_only_cms_constraint
    [("cl", ⟨"cl", [1], 0, 1, "/cl"⟩), ("cms", ⟨"cms", [0], -1, 1, "/cms"⟩)]

/-- The declaration metadata of one module variable: exactly the field set
`{name, defaultValue, unit, description, xmlPath}` of an `add_input` /
`add_output` call in a module's `__specs__.py`. -/
structure VarDecl where
  var_name : String
  default_value : Option Val
  unit : String
  descr : String
  cpacs_path : String
deriving DecidableEq, Repr

/-- Modelled from the spec: `CEASIOM_XPATH`, imported by the specs files from
`ceasiompy.utils.moduleinterfaces` (not part of this excerpt), is the
CEASIOMpy tool-specific prefix of the shared CPACS document. -/
def CEASIOM_XPATH : String := "/cpacs/toolspecific/CEASIOMpy"

/-- The input declarations of `SkinFriction/__specs__.py`, in source order. -/
def skinFrictionInputs : List VarDecl :=
  [⟨"wetted_area", none, "m^2", "Wetted area of the aircraft (calculated by SU2)",
      CEASIOM_XPATH ++ "/geometry/analysis/wettedArea"⟩,
   ⟨"cruise_speed", some 272, "m/s", "Aircraft cruise speed",
      CEASIOM_XPATH ++ "/ranges/cruiseSpeed"⟩,
   ⟨"cruise_alt", some 12000, "m", "Aircraft cruise altitude",
      CEASIOM_XPATH ++ "/ranges/cruiseAltitude"⟩]

/-- The output declarations of `SkinFriction/__specs__.py`, in source order. -/
def skinFrictionOutputs : List VarDecl :=
  [⟨"cd0", none, "1", "Skin friction drag coefficient",
      CEASIOM_XPATH ++ "/aerodynamics/su2/cd0"⟩,
   ⟨"wing_area", none, "m^2", "Wing area of the main (largest) wing",
      CEASIOM_XPATH ++ "/geometry/analysis/wingArea"⟩,
   ⟨"wing_span", none, "m", "Wing span of the main (largest) wing",
      CEASIOM_XPATH ++ "/geometry/analysis/wingSpan"⟩]

/-- C10: every SkinFriction variable declaration carries exactly the fields
name, default value, unit, description and XML path (the `VarDecl` record),
split into the input list and the output list; the input named `wetted_area`
is bound to the tool-specific prefix extended with
`/geometry/analysis/wettedArea`, i.e. the exact path
`/cpacs/toolspecific/CEASIOMpy/geometry/analysis/wettedArea`. -/
theorem C10_skinfriction_metadata :
    (∀ d : VarDecl, d = ⟨d.var_name, d.default_value, d.unit, d.descr, d.cpacs_path⟩) ∧
    skinFrictionInputs.map (fun d => d.var_name) =
      ["wetted_area", "cruise_speed", "cruise_alt"] ∧
    skinFrictionOutputs.map (fun d => d.var_name) = ["cd0", "wing_area", "wing_span"] ∧
    (skinFrictionInputs.filter (fun d => d.var_name = "wetted_area")).map
        (fun d => d.cpacs_path) =
      [CEASIOM_XPATH ++ "/geometry/analysis/wettedArea"] ∧
    CEASIOM_XPATH ++ "/geometry/analysis/wettedArea" =
      "/cpacs/toolspecific/CEASIOMpy/geometry/analysis/wettedArea" :=
  ⟨fun _ => rfl, by decide, by decide, by decide, by decide⟩
